import Mathlib

/-!
Verification development for the paint-shop production-sequence optimizer
(`paint_shop_optimizer.py`).  The Python source is shallowly embedded:

* pandas rows become Lean structures, a column that may hold NaN becomes an
  `Option` field;
* the MILP model built by `optimize_sequence_milp` becomes an explicit
  feasibility predicate plus an objective function over rational-valued
  variable assignments;
* Python exceptions become `Except` results (the embedded fragments of the
  source raise no exception of their own, so most embedded operations are
  total and always return `.ok`; the one genuine failure path, the
  `y[0]` dictionary access in an empty model, is an explicit error branch);
* the IEEE-754 double arithmetic used by `calculate_ideal_positions`
  (`spacing = total_batches / num_batches`, `int(i * spacing)`) is modelled
  exactly by round-to-nearest-even at 53 significant bits, carried out in
  integer mantissa/exponent arithmetic (overflow past `2^1024` and
  subnormal underflow are not modelled; every value reasoned about below is
  far inside the normal range).
-/

/-- Row of the input vehicle table.  `paint` is `none` when the pandas cell
holds NaN (a missing paint code); `production_sequence` is the original
sequence column; `planned_ga_in_datetime` is kept abstract as minutes. -/
structure Vehicle where
  vin : Nat
  paint : Option String
  production_sequence : Nat
  planned_ga_in_datetime : Option Int
  deriving DecidableEq

/-- Row of the paint-distribution summary produced by
`analyze_paint_distribution`. -/
structure PaintSummaryRow where
  paint_code : String
  vehicle_count : Nat
  full_batches : Nat
  remainder : Nat
  total_batches : Nat
  deriving DecidableEq

/-- Row of the batch sequence produced by solution extraction. -/
structure BatchRow where
  batch_position : Nat
  paint_code : String
  deriving DecidableEq

/-- Row of the solution table produced by `assign_vehicles_to_batches`. -/
structure SolutionRow where
  vin : Nat
  paint : String
  batch_id : Nat
  production_sequence : Nat
  original_sequence : Nat
  planned_ga_in_datetime : Option Int
  deriving DecidableEq

/-- Observation language for failure outcomes.  The spec names the first
four; the Python source defines none of them, and the only exceptions the
embedded fragments can actually raise are the interpreter's and
libraries' own: `KeyError` from an empty changeover-variable dictionary,
`ZeroDivisionError` from `total_batches / 0` in the ideal-position
formula, and pandas' `IntCastingNaNError` when `batch_size = 0` makes
`np.ceil(count / 0) = inf` and `.astype(int)` rejects the non-finite
value. -/
inductive PSError where
  | validationError
  | modelConstructionError
  | solutionIntegrityError
  | assignmentShortfallError
  | pythonKeyError
  | pythonZeroDivisionError
  | pandasIntCastingNaNError
  deriving DecidableEq

/-! ## Distribution analysis (`analyze_paint_distribution`, lines 53-79) -/

/-- Ceiling division `⌈c / b⌉`: the value of
`np.ceil(vehicle_count / batch_size).astype(int)` whenever `b > 0`.  For
`b = 0` (and `c > 0`) that pandas expression instead raises
`IntCastingNaNError` on the resulting `inf`; this degenerate value is
never consumed, because `analyze_paint_distribution` below turns exactly
that situation into an error result. -/
def ceilDiv (c b : Nat) : Nat := (c + b - 1) / b

/-- Summary row for one paint code, mirroring the column arithmetic of
lines 66-68 of the source. -/
def mkSummaryRow (batch_size : Nat) (p : String) (count : Nat) : PaintSummaryRow :=
  { paint_code := p
    vehicle_count := count
    full_batches := count / batch_size
    remainder := count % batch_size
    total_batches := ceilDiv count batch_size }

/-- Paint column with missing values removed: `value_counts` silently drops
NaN cells. -/
def paintColumn (vehicles : List Vehicle) : List String :=
  vehicles.filterMap (·.paint)

/-- Distribution summary of `analyze_paint_distribution`: one row per
distinct (present) paint code with its `value_counts` count, sorted by
descending vehicle count (`sort_values('vehicle_count', ascending=False)`;
the pandas sort is modelled by an insertion sort, which can differ from
pandas only in the relative order of equal counts — no property proved
below depends on the order of ties). -/
def paint_summary (batch_size : Nat) (vehicles : List Vehicle) : List PaintSummaryRow :=
  ((paintColumn vehicles).dedup.map
      (fun p => mkSummaryRow batch_size p ((paintColumn vehicles).count p))).insertionSort
    (fun a b => a.vehicle_count ≥ b.vehicle_count)

/-- Embedding of `analyze_paint_distribution`.  The source performs no
validation whatsoever: for every positive batch size it computes the
summary for any input (an empty input yields an empty summary) and
raises nothing.  The one failure path is `batch_size = 0` with at least
one present paint code: every `value_counts` row then has a positive
count, `np.ceil(count / 0)` is `inf`, and the `.astype(int)` at line 68
raises pandas' `IntCastingNaNError` (with no present paint the column is
empty and the cast succeeds vacuously).  No `ValidationError` exists
anywhere. -/
def analyze_paint_distribution (batch_size : Nat) (vehicles : List Vehicle) :
    Except PSError (List PaintSummaryRow) :=
  if batch_size = 0 ∧ paintColumn vehicles ≠ [] then
    Except.error PSError.pandasIntCastingNaNError
  else
    Except.ok (paint_summary batch_size vehicles)

/-- Schedule length: `total_batches = self.paint_summary['total_batches'].sum()`
(line 121 of the source). -/
def total_batches_model (batch_size : Nat) (vehicles : List Vehicle) : Nat :=
  ((paint_summary batch_size vehicles).map (·.total_batches)).sum

/-! ## IEEE-754 binary64 model

Round-to-nearest-even at 53 significant bits, used to embed the float
arithmetic of `calculate_ideal_positions` exactly.  A nonnegative double is
represented as a mantissa/exponent pair `(m, e)` denoting `m · 2^(e − 52)`,
and rounding a nonnegative fraction `a / b` is carried out entirely in
integer arithmetic (no overflow past `2^1024` and no subnormal flushing is
modelled; every value arising below is far inside the normal range). -/

/-- Fuel-driven base-2 logarithm: `fl2go fuel n = ⌊log₂ n⌋` whenever
`1 ≤ n ≤ fuel`. -/
def fl2go : Nat → Nat → Nat
  | 0, _ => 0
  | fuel + 1, n => if n ≤ 1 then 0 else fl2go fuel (n / 2) + 1

/-- Floor base-2 logarithm of a natural number (0 at 0). -/
def floorLog2 (n : Nat) : Nat := fl2go n n

/-- Round the fraction `a / b` (with `b > 0`) to the nearest integer, ties
to even. -/
def rneFrac (a b : Nat) : Nat :=
  let q := a / b
  let r := a % b
  if 2 * r < b then q
  else if b < 2 * r then q + 1
  else if q % 2 = 0 then q else q + 1

/-- Binade exponent of the positive fraction `a / b`: the unique `e` with
`2 ^ e ≤ a / b < 2 ^ (e + 1)` (junk value when `a = 0` or `b = 0`).  For
`a / b < 1` it is `-(⌊log₂ (⌈b / a⌉ - 1)⌋ + 1)`. -/
def fracLog2 (a b : Nat) : ℤ :=
  if b ≤ a then ((floorLog2 (a / b) : Nat) : ℤ)
  else -(((floorLog2 (ceilDiv b a - 1) + 1 : Nat)) : ℤ)

/-- IEEE-754 binary64 rounding of the nonnegative fraction `a / b`
(`b > 0`): the returned pair `(m, e)` denotes the double `m · 2^(e − 52)`.
The scaled mantissa `(a / b) · 2^(52 − e)` is rounded to nearest, ties to
even; the scaling is exact because it only multiplies numerator or
denominator by a power of two. -/
def flFrac (a b : Nat) : Nat × ℤ :=
  let e := fracLog2 a b
  (rneFrac (a * 2 ^ (52 - e).toNat) (b * 2 ^ (e - 52).toNat), e)

/-! ## Ideal positions (`calculate_ideal_positions`, lines 81-99) -/

/-- Embedding of `calculate_ideal_positions`.  For `num_batches == 1` the
source returns `[total_batches // 2]`.  Otherwise it computes
`spacing = total_batches / num_batches` in binary64 and returns
`[int(i * spacing) for i in range(num_batches)]`: the division and each
product `i * spacing` are rounded by `flFrac` (the product
`i · m · 2^(e − 52)` is fed to `flFrac` as an exact fraction), and `int`
truncation of the nonnegative double `(m', e')` is the integer quotient
`m' · 2^(e' − 52)` rounded down.  (For `num_batches = 0` the Python here
raises ZeroDivisionError; the model builder below branches on that case
before ever calling this function.) -/
def calculate_ideal_positions (num_batches total_batches : Nat) : List Nat :=
  if num_batches = 1 then [total_batches / 2]
  else
    let s := flFrac total_batches num_batches
    (List.range num_batches).map (fun i =>
      let p := flFrac (i * s.1 * 2 ^ (s.2 - 52).toNat) (2 ^ (52 - s.2).toNat)
      p.1 * 2 ^ (p.2 - 52).toNat / 2 ^ (52 - p.2).toNat)

/-- Ideal slot looked up by the model builder: `ideal_positions[c][i]`. -/
def idealPos (num_batches total_batches i : Nat) : Nat :=
  (calculate_ideal_positions num_batches total_batches).getD i 0

/-! ## MILP model (`optimize_sequence_milp`, lines 101-237)

The decision variables are `x[c,b]` (binary assignment), `y[b]` (binary
changeover) and `dev[c,i,b]` (continuous deviation); a solver assignment is
a triple of rational-valued functions.  The constraint set and objective
are embedded as a predicate and a function over such assignments, mirroring
the `prob +=` statements of lines 159-200 one for one. -/

/-- Constraint set added by lines 161-188 of the source, for paint-code
list `PC`, per-code batch requirement `n`, and schedule length `T`:
one paint per slot (lines 162-163), exact batch counts (lines 166-168),
changeover detection over `range(1, T)` (lines 171-173), first-slot setup
(line 176), and the two-sided deviation bounds (lines 180-188). -/
def modelConstraints (PC : List String) (n : String → Nat) (T : Nat)
    (x : String → Nat → ℚ) (y : Nat → ℚ) (d : String → Nat → Nat → ℚ) : Prop :=
  (∀ b ∈ List.range T, (PC.map (fun c => x c b)).sum = 1) ∧
  (∀ c ∈ PC, ((List.range T).map (fun b => x c b)).sum = (n c : ℚ)) ∧
  (∀ b ∈ List.range' 1 (T - 1), ∀ c ∈ PC, y b ≥ x c b - x c (b - 1)) ∧
  y 0 = 1 ∧
  (∀ c ∈ PC, ∀ i ∈ List.range (n c), ∀ b ∈ List.range T,
    d c i b ≥ ((b : ℚ) - (idealPos (n c) T i : ℚ)) * x c b ∧
    d c i b ≥ ((idealPos (n c) T i : ℚ) - (b : ℚ)) * x c b)

/-- Objective of lines 190-200:
`1000 * lpSum(y) + 1 * lpSum(dev)` (changeover weight 1000, level-load
weight 1). -/
def modelObjective (PC : List String) (n : String → Nat) (T : Nat)
    (y : Nat → ℚ) (d : String → Nat → Nat → ℚ) : ℚ :=
  1000 * ((List.range T).map (fun b => y b)).sum +
    1 * (PC.map (fun c =>
      ((List.range (n c)).map (fun i =>
        ((List.range T).map (fun b => d c i b)).sum)).sum)).sum

/-- Abstract MILP model: feasibility predicate plus objective. -/
structure ScheduleModel where
  feasible : (String → Nat → ℚ) → (Nat → ℚ) → (String → Nat → Nat → ℚ) → Prop
  objective : (Nat → ℚ) → (String → Nat → Nat → ℚ) → ℚ

/-- Model construction step of `optimize_sequence_milp` (lines 128-200).
The source performs no parameter validation; the exceptions it can
actually hit are the interpreter's own, in source order:

* a paint code with zero required batches makes
  `calculate_ideal_positions` divide by zero at line 97
  (ZeroDivisionError), before any variable is created;
* with `total_batches = 0` the changeover dictionary `y` is empty, so the
  `prob += y[0] == 1` statement at line 176 raises KeyError.

Neither path produces anything like the spec's `ModelConstructionError`. -/
def build_milp_model (PC : List String) (n : String → Nat) (T : Nat) :
    Except PSError ScheduleModel :=
  if PC.any (fun c => n c == 0) then Except.error PSError.pythonZeroDivisionError
  else if T = 0 then Except.error PSError.pythonKeyError
  else Except.ok ⟨modelConstraints PC n T, modelObjective PC n T⟩

/-! ## Solution extraction (lines 215-228)

For each slot the inner loop scans the paint codes in summary order and
appends the first one whose variable value exceeds `0.5`, then breaks; a
slot in which no variable exceeds the threshold is silently skipped, and
extra codes above the threshold are silently ignored. -/

/-- Batch sequence extracted from a solver assignment `xv`. -/
def extractList (PC : List String) (T : Nat) (xv : String → Nat → ℚ) :
    List BatchRow :=
  (List.range T).filterMap (fun b =>
    (PC.find? (fun c => decide ((1 : ℚ) / 2 < xv c b))).map
      (fun c => { batch_position := b, paint_code := c }))

/-- Embedding of the extraction loop; it can raise nothing. -/
def extract_solution (PC : List String) (T : Nat) (xv : String → Nat → ℚ) :
    Except PSError (List BatchRow) :=
  Except.ok (extractList PC T xv)

/-! ## Vehicle assignment (`assign_vehicles_to_batches`, lines 239-283) -/

/-- Units available for a batch of paint code `p`: the rows of the vehicle
table, in table order, whose paint matches and whose VIN has not been
assigned yet (line 263-266), truncated to `batch_size` by `.head(...)`. -/
def pickFor (vehicles : List Vehicle) (assigned : List Nat) (p : String)
    (batch_size : Nat) : List Vehicle :=
  (vehicles.filter
    (fun u => u.paint == some p && !(decide (u.vin ∈ assigned)))).take batch_size

/-- Solution rows for the units of one batch: `batch_id = batch_pos + 1`
and consecutive global sequence numbers starting at `seq` (lines 269-277).
The `paint` column is `vehicle['paint']`, which the `pickFor` filter
guarantees equals the batch's paint code. -/
def rowsFor (p : String) (batch_pos : Nat) : Nat → List Vehicle → List SolutionRow
  | _, [] => []
  | seq, u :: us =>
    { vin := u.vin, paint := p, batch_id := batch_pos + 1,
      production_sequence := seq, original_sequence := u.production_sequence,
      planned_ga_in_datetime := none } :: rowsFor p batch_pos (seq + 1) us

/-- Main assignment loop over the batch sequence (lines 258-277), with the
already-assigned VIN list and the running sequence counter as explicit
state. -/
def assignGo (vehicles : List Vehicle) (batch_size : Nat) :
    List BatchRow → List Nat → Nat → List SolutionRow
  | [], _, _ => []
  | b :: rest, assigned, seq =>
    let pick := pickFor vehicles assigned b.paint_code batch_size
    rowsFor b.paint_code b.batch_position seq pick ++
      assignGo vehicles batch_size rest (assigned ++ pick.map (·.vin))
        (seq + pick.length)

/-- Embedding of `assign_vehicles_to_batches`: the batch sequence is first
sorted by `batch_position` (line 252; the pandas sort is modelled by a
stable insertion sort — batch positions are distinct in every sequence the
extractor produces), then vehicles are assigned batch by batch.  A batch
whose paint code has fewer remaining units than `batch_size` silently
receives fewer units (possibly none): `.head` never fails, so no exception
is ever raised. -/
def assign_vehicles_pure (vehicles : List Vehicle) (batch_size : Nat)
    (batch_sequence : List BatchRow) : List SolutionRow :=
  assignGo vehicles batch_size
    (batch_sequence.insertionSort (fun a b => a.batch_position ≤ b.batch_position))
    [] 1

/-- Except-typed wrapper: the source raises nothing on this path. -/
def assign_vehicles_to_batches (vehicles : List Vehicle) (batch_size : Nat)
    (batch_sequence : List BatchRow) : Except PSError (List SolutionRow) :=
  Except.ok (assign_vehicles_pure vehicles batch_size batch_sequence)

/-! ## Timestamp update (`update_timestamps`, lines 285-305) -/

/-- Embedding of the list comprehension of lines 300-303: row `i` of the
solution table gets planned timestamp `start + i * increment` (minutes);
all other columns are untouched. -/
def update_timestamps_go (start increment : Int) : Int → List SolutionRow → List SolutionRow
  | _, [] => []
  | i, r :: rest =>
    { r with planned_ga_in_datetime := some (start + i * increment) } ::
      update_timestamps_go start increment (i + 1) rest

/-- Embedding of `update_timestamps` (with the start datetime and the
per-vehicle increment as parameters; the source defaults them to the
minimum original timestamp and 1 minute). -/
def update_timestamps (rows : List SolutionRow) (start increment : Int) :
    List SolutionRow :=
  update_timestamps_go start increment 0 rows

/-! ## Summary metrics (`generate_summary_metrics`, lines 307-344) -/

/-- Derived metrics record. -/
structure Metrics where
  total_vehicles : Nat
  unique_paint_codes : Nat
  total_batches : Nat
  total_changeovers : Nat
  changeover_rate : ℚ
  changeover_positions : List Nat
  deriving DecidableEq

/-- Changeover scan of lines 327-332: walk the solution rows with the
previous paint as state; a row whose paint differs from a present previous
paint contributes its `production_sequence`.  The first row never
contributes (its previous paint is `None`). -/
def changeover_scan (prev : Option String) : List SolutionRow → List Nat
  | [] => []
  | r :: rest =>
    match prev with
    | none => changeover_scan (some r.paint) rest
    | some q =>
      if r.paint ≠ q then r.production_sequence :: changeover_scan (some r.paint) rest
      else changeover_scan (some r.paint) rest

/-- Positions at which the paint code changes, per the metrics stage. -/
def changeover_positions (rows : List SolutionRow) : List Nat :=
  changeover_scan none rows

/-- Embedding of `generate_summary_metrics` (`nunique` is the number of
distinct values; `batch_id` and `paint` are never missing here). -/
def generate_summary_metrics (rows : List SolutionRow) : Metrics :=
  { total_vehicles := rows.length
    unique_paint_codes := (rows.map (·.paint)).dedup.length
    total_batches := (rows.map (·.batch_id)).dedup.length
    total_changeovers := (changeover_positions rows).length
    changeover_rate :=
      ((changeover_positions rows).length : ℚ) /
        (((rows.map (·.batch_id)).dedup.length : Nat) : ℚ) * 100
    changeover_positions := changeover_positions rows }

/-! ## Claim-side formalizations

Definitions below this point transcribe the wording of the specification's
claims (not the source); each theorem compares them with the embeddings
above. -/

/-- Constraint families exactly as the spec states them: for every slot `s`
the paint assignments sum to one; every code `c` occupies exactly `n c`
slots; `y s ≥ x c s − x c (s−1)` for every `s ≥ 1` and every `c`;
`y 0 = 1`; and the two-sided deviation bounds for every `(c, i, s)`. -/
def claimConstraints (PC : List String) (n : String → Nat) (T : Nat)
    (x : String → Nat → ℚ) (y : Nat → ℚ) (d : String → Nat → Nat → ℚ) : Prop :=
  (∀ s < T, (PC.map (fun c => x c s)).sum = 1) ∧
  (∀ c ∈ PC, (∑ s ∈ Finset.range T, x c s) = (n c : ℚ)) ∧
  (∀ s, 1 ≤ s → s < T → ∀ c ∈ PC, y s ≥ x c s - x c (s - 1)) ∧
  y 0 = 1 ∧
  (∀ c ∈ PC, ∀ i < n c, ∀ s < T,
    d c i s ≥ ((s : ℚ) - (idealPos (n c) T i : ℚ)) * x c s ∧
    d c i s ≥ ((idealPos (n c) T i : ℚ) - (s : ℚ)) * x c s)

/-- Objective exactly as the spec states it: `1000 · Σ_s y[s] + 1 · Σ dev`. -/
def claimObjective (PC : List String) (n : String → Nat) (T : Nat)
    (y : Nat → ℚ) (d : String → Nat → Nat → ℚ) : ℚ :=
  1000 * (∑ s ∈ Finset.range T, y s) +
    1 * (PC.map (fun c =>
      ∑ i ∈ Finset.range (n c), ∑ s ∈ Finset.range T, d c i s)).sum

/-- Sum of a function over `List.range` agrees with the `Finset.range` sum. -/
theorem list_range_sum (f : Nat → ℚ) :
    ∀ m : Nat, ((List.range m).map f).sum = ∑ j ∈ Finset.range m, f j := by
  intro m
  induction m with
  | zero => simp
  | succ k ih => rw [List.range_succ, Finset.sum_range_succ, List.map_append,
      List.sum_append, ih]; simp

/-- C1: the built optimization model contains exactly the stated constraint
families — one paint code per slot, exact per-code batch counts, changeover
detection `y[s] ≥ x[c,s] − x[c,s−1]` for `s ≥ 1`, the boundary condition
`y[0] = 1`, and the two-sided deviation bounds — with objective
`1000 · Σ y + 1 · Σ dev`: the embedded constraint set built from the source
is equivalent to the claim's constraint set, and the objectives coincide,
for every paint-code list, batch requirement, schedule length and variable
assignment. -/
theorem C1_model_contains_exactly_stated_families
    (PC : List String) (n : String → Nat) (T : Nat)
    (x : String → Nat → ℚ) (y : Nat → ℚ) (d : String → Nat → Nat → ℚ) :
    (modelConstraints PC n T x y d ↔ claimConstraints PC n T x y d) ∧
    modelObjective PC n T y d = claimObjective PC n T y d := by
  constructor
  · constructor
    · rintro ⟨h1, h2, h3, h4, h5⟩
      refine ⟨?_, ?_, ?_, h4, ?_⟩
      · intro s hs
        exact h1 s (List.mem_range.mpr hs)
      · intro c hc
        rw [← list_range_sum]
        exact h2 c hc
      · intro s hs1 hs2 c hc
        exact h3 s (List.mem_range'_1.mpr ⟨hs1, by omega⟩) c hc
      · intro c hc i hi s hs
        exact h5 c hc i (List.mem_range.mpr hi) s (List.mem_range.mpr hs)
    · rintro ⟨h1, h2, h3, h4, h5⟩
      refine ⟨?_, ?_, ?_, h4, ?_⟩
      · intro b hb
        exact h1 b (List.mem_range.mp hb)
      · intro c hc
        rw [list_range_sum]
        exact h2 c hc
      · intro b hb c hc
        have hm := List.mem_range'_1.mp hb
        exact h3 b hm.1 (by omega) c hc
      · intro c hc i hi b hb
        exact h5 c hc i (List.mem_range.mp hi) b (List.mem_range.mp hb)
  · have hinner : ∀ c : String,
        ((List.range (n c)).map (fun i => ((List.range T).map (fun b => d c i b)).sum)).sum
          = ∑ i ∈ Finset.range (n c), ∑ s ∈ Finset.range T, d c i s := by
      intro c
      rw [list_range_sum]
      exact Finset.sum_congr rfl (fun i _ => list_range_sum _ _)
    simp only [modelObjective, claimObjective, list_range_sum, hinner]

/-! ## Exactness of the binary64 model on small integers -/

/-- Lower bound of the fuel-driven logarithm: `2 ^ fl2go fuel n ≤ n`. -/
theorem fl2go_le (fuel : Nat) : ∀ n, 1 ≤ n → n ≤ fuel → 2 ^ fl2go fuel n ≤ n := by
  induction fuel with
  | zero => intro n h1 h2; omega
  | succ k ih =>
    intro n h1 h2
    rw [fl2go]
    by_cases h : n ≤ 1
    · simp [h]; omega
    · have hd1 : 1 ≤ n / 2 := by omega
      have hd2 : n / 2 ≤ k := by
        have := Nat.div_lt_self (by omega : 0 < n) (by omega : 1 < 2)
        omega
      have := ih (n / 2) hd1 hd2
      simp only [h, if_false]
      calc 2 ^ (fl2go k (n / 2) + 1) = 2 ^ fl2go k (n / 2) * 2 := by ring
        _ ≤ n / 2 * 2 := by omega
        _ ≤ n := by omega

/-- The floor logarithm of a positive `n < 2^53` is at most 52. -/
theorem floorLog2_le_52 (n : Nat) (h1 : 1 ≤ n) (h53 : n < 2 ^ 53) :
    floorLog2 n ≤ 52 := by
  by_contra hgt
  have h2 : 2 ^ 53 ≤ 2 ^ floorLog2 n :=
    Nat.pow_le_pow_right (by omega) (by omega)
  have hle : 2 ^ floorLog2 n ≤ n := fl2go_le n n h1 (Nat.le_refl n)
  omega

/-- Nearest-integer rounding is exact on exact quotients. -/
theorem rneFrac_exact (a b : Nat) (hb : 0 < b) (hdvd : b ∣ a) :
    rneFrac a b = a / b := by
  have hr : a % b = 0 := Nat.mod_eq_zero_of_dvd hdvd
  simp only [rneFrac, hr]
  rw [if_pos (by omega : 2 * 0 < b)]

/-- Rounding of `0 / b` gives mantissa 0. -/
theorem rneFrac_zero (b : Nat) : rneFrac 0 b = 0 := by
  simp [rneFrac]

/-- The binary64 rounding of an exact integer quotient `(b * V) / b` with
`1 ≤ V < 2^53` is exact: the mantissa is `V` scaled into the 53-bit window
and the exponent is `⌊log₂ V⌋`. -/
theorem flFrac_exact (V b : Nat) (hb : 1 ≤ b) (hV : 1 ≤ V) (h53 : V < 2 ^ 53) :
    flFrac (b * V) b = (V * 2 ^ (52 - floorLog2 V), (floorLog2 V : ℤ)) := by
  have hE : floorLog2 V ≤ 52 := floorLog2_le_52 V hV h53
  have hba : b ≤ b * V := Nat.le_mul_of_pos_right b hV
  have hq : b * V / b = V := Nat.mul_div_cancel_left V (by omega)
  have he : fracLog2 (b * V) b = (floorLog2 V : ℤ) := by
    rw [fracLog2, if_pos hba, hq]
  rw [flFrac, he]
  have h1 : ((52 : ℤ) - (floorLog2 V : ℤ)).toNat = 52 - floorLog2 V := by omega
  have h2 : ((floorLog2 V : ℤ) - 52).toNat = 0 := by omega
  rw [h1, h2, pow_zero, Nat.mul_one]
  have hdvd : b ∣ b * V * 2 ^ (52 - floorLog2 V) :=
    Dvd.dvd.mul_right (Dvd.intro V rfl) _
  rw [rneFrac_exact _ b (by omega) hdvd]
  congr 1
  rw [Nat.mul_assoc]
  exact Nat.mul_div_cancel_left _ (by omega)

/-- Mantissa of the rounding of `0 / b` is 0. -/
theorem flFrac_zero_fst (b : Nat) : (flFrac 0 b).1 = 0 := by
  simp [flFrac, rneFrac_zero]

/-- C2 (amended): the ideal-position calculation returns `[T // 2]` for a
single batch, and for `n ≥ 2` its `i`-th entry is the binary64 value of
`int(i * (T / n))`, which equals `⌊i · T / n⌋` whenever `n` divides `T`
and `T < 2^53`; for `T = 3` it returns `[0, 1]` for `n = 2` and `[1]` for
`n = 1`.  The unrestricted claim
`calculate_ideal_positions n T = [⌊i·T/n⌋]` is false — see the
counterexample at `n = 22, T = 30` — and even an exactly representable
quotient `T / n` is not sufficient: the product `i · (T/n)` can land on a
midpoint of the representable grid and tie away from the floor (see the
second counterexample, at `n = 4, T = 6004799503160666`), which is why the
general case proved here requires `n ∣ T`. -/
theorem C2_amended_ideal_positions :
    (∀ T, calculate_ideal_positions 1 T = [T / 2]) ∧
    (∀ n T, 2 ≤ n → n ∣ T → T < 2 ^ 53 →
      calculate_ideal_positions n T = (List.range n).map (fun i => i * T / n)) ∧
    calculate_ideal_positions 2 3 = [0, 1] ∧
    calculate_ideal_positions 1 3 = [1] := by
  refine ⟨?_, ?_, by decide, by decide⟩
  · intro T
    simp [calculate_ideal_positions]
  · intro n T hn hdvd h53
    obtain ⟨M, rfl⟩ := hdvd
    have hn0 : 0 < n := by omega
    simp only [calculate_ideal_positions, if_neg (by omega : ¬ n = 1)]
    apply List.map_congr_left
    intro i hi
    have hi' : i < n := List.mem_range.mp hi
    have hrhs : i * (n * M) / n = i * M := by
      rw [show i * (n * M) = i * M * n by ring, Nat.mul_div_cancel _ hn0]
    rcases Nat.eq_zero_or_pos M with hM | hM
    · subst hM
      simp [Nat.mul_zero, flFrac_zero_fst, Nat.zero_mul, Nat.zero_div]
    · have hM53 : M < 2 ^ 53 := lt_of_le_of_lt (Nat.le_mul_of_pos_left M hn0) h53
      have hs := flFrac_exact M n hn0 hM hM53
      have hE52 : floorLog2 M ≤ 52 := floorLog2_le_52 M hM hM53
      simp only [hs]
      have h1 : (((floorLog2 M : ℤ)) - 52).toNat = 0 := by omega
      have h2 : ((52 : ℤ) - (floorLog2 M : ℤ)).toNat = 52 - floorLog2 M := by omega
      rw [h1, h2, pow_zero, Nat.mul_one]
      rcases Nat.eq_zero_or_pos i with hi0 | hi0
      · subst hi0
        simp [flFrac_zero_fst, Nat.zero_mul, Nat.zero_div]
      · have hiM : 1 ≤ i * M := Nat.mul_pos hi0 hM
        have hiM53 : i * M < 2 ^ 53 :=
          lt_of_lt_of_le ((Nat.mul_lt_mul_right hM).mpr hi') (le_of_lt h53)
        have hp2 : (0:Nat) < 2 ^ (52 - floorLog2 M) := Nat.pos_pow_of_pos _ (by omega)
        have key : i * (M * 2 ^ (52 - floorLog2 M)) = 2 ^ (52 - floorLog2 M) * (i * M) := by
          ring
        rw [key, flFrac_exact (i * M) _ hp2 hiM hiM53]
        have hE2 : floorLog2 (i * M) ≤ 52 := floorLog2_le_52 _ hiM hiM53
        have h3 : (((floorLog2 (i * M) : ℤ)) - 52).toNat = 0 := by omega
        have h4 : ((52 : ℤ) - (floorLog2 (i * M) : ℤ)).toNat = 52 - floorLog2 (i * M) := by
          omega
        simp only [h3, h4, pow_zero, Nat.mul_one]
        rw [hrhs]
        exact Nat.mul_div_cancel _ (Nat.pos_pow_of_pos _ (by omega))

set_option maxRecDepth 100000 in
/-- C2 counterexample: for a paint code with `n = 22` required batches in a
`T = 30`-slot schedule the exact spec formula gives `⌊11 · 30 / 22⌋ = 15`,
but the source's float evaluation `int(11 * (30 / 22))` yields 14 (the
binary64 product `11 * fl(30/22)` is `15 - 2^{-49}`), so the returned list
differs from `[⌊i · T / n⌋ for i in 0..n-1]`.  Moreover exact
representability of the quotient is not sufficient: at `n = 4`,
`T = 6004799503160666` the quotient `T / 4 = 1501199875790166.5` is a
binary64 value (mantissa `T`, exponent 50, i.e. `T · 2^{-2}`), yet entry
`i = 3` is `2^52 + 4 = 4503599627370500` while
`⌊3 · T / 4⌋ = 2^52 + 3`: the exact product `4503599627370499.5` is a
midpoint at that magnitude and rounds to the even neighbour above. -/
theorem C2_cex_float_drift :
    (calculate_ideal_positions 22 30).getD 11 0 = 14 ∧
    (11 * 30) / 22 = 15 ∧
    calculate_ideal_positions 22 30 ≠ (List.range 22).map (fun i => i * 30 / 22) ∧
    flFrac 6004799503160666 4 = (6004799503160666, 50) ∧
    (calculate_ideal_positions 4 6004799503160666).getD 3 0 = 4503599627370500 ∧
    3 * 6004799503160666 / 4 = 4503599627370499 := by
  refine ⟨by decide, by decide, by decide, by decide, by decide, by decide⟩

/-- C2 witness: the amended general formula applies, e.g., at `n = 2`,
`T = 4`. -/
theorem C2_witness_ideal_positions :
    calculate_ideal_positions 2 4 = (List.range 2).map (fun i => i * 4 / 2) :=
  C2_amended_ideal_positions.2.1 2 4 (by decide) ⟨2, rfl⟩ (by norm_num)

/-- C5 counterexample: `analyze_paint_distribution` does not fail on an
empty input — it returns an empty summary — and a unit with a missing
paint code is silently dropped rather than rejected; no `ValidationError`
is ever produced (the source defines no such class). -/
theorem C5_cex_no_validation_error :
    analyze_paint_distribution 20 [] = Except.ok [] ∧
    analyze_paint_distribution 20 [] ≠ Except.error PSError.validationError ∧
    analyze_paint_distribution 20
        [{ vin := 1, paint := none, production_sequence := 1,
           planned_ga_in_datetime := none }] = Except.ok [] := by
  refine ⟨rfl, ?_, rfl⟩
  simp [analyze_paint_distribution]

/-- C5 (amended): the paint-distribution analysis performs no input
validation and can never produce a `ValidationError` (none exists in the
source).  For every positive batch size it succeeds on every input; an
empty input yields an `ok` empty summary for every batch size; a unit
with a missing paint code is silently excluded from the summary.  Its
only failure is the unvalidated degenerate configuration
`batch_size = 0` with at least one present paint code, where the
`.astype(int)` of line 68 raises pandas' `IntCastingNaNError` — still not
a `ValidationError`. -/
theorem C5_amended_analysis_never_fails :
    (∀ (batch_size : Nat) (vehicles : List Vehicle), 0 < batch_size →
      analyze_paint_distribution batch_size vehicles =
        Except.ok (paint_summary batch_size vehicles)) ∧
    (∀ batch_size : Nat, analyze_paint_distribution batch_size [] = Except.ok []) ∧
    (∀ vehicles : List Vehicle, paintColumn vehicles ≠ [] →
      analyze_paint_distribution 0 vehicles =
        Except.error PSError.pandasIntCastingNaNError) ∧
    (∀ (batch_size : Nat) (vehicles : List Vehicle),
      analyze_paint_distribution batch_size vehicles ≠
        Except.error PSError.validationError) ∧
    (∀ (batch_size : Nat) (vehicles : List Vehicle) (u : Vehicle), u.paint = none →
      paint_summary batch_size (u :: vehicles) = paint_summary batch_size vehicles) := by
  refine ⟨?_, ?_, ?_, ?_, ?_⟩
  · intro bs vs hbs
    unfold analyze_paint_distribution
    rw [if_neg]
    rintro ⟨h0, _⟩
    omega
  · intro bs
    unfold analyze_paint_distribution
    rw [if_neg (fun h => h.2 rfl)]
    rfl
  · intro vs hne
    unfold analyze_paint_distribution
    rw [if_pos ⟨rfl, hne⟩]
  · intro bs vs
    unfold analyze_paint_distribution
    split
    · simp
    · simp
  · intro bs vs u hu
    simp [paint_summary, paintColumn, List.filterMap_cons, hu]

/-- C5 witness: concrete instances of each amended behaviour — a
missing-paint unit is dropped, `batch_size = 0` with a present paint code
fails with the pandas cast error (not `ValidationError`), the empty input
succeeds, and a positive batch size succeeds. -/
theorem C5_witness_missing_paint_dropped :
    paint_summary 20
        ({ vin := 1, paint := none, production_sequence := 1,
           planned_ga_in_datetime := none } :: []) = paint_summary 20 [] ∧
    analyze_paint_distribution 0
        [{ vin := 1, paint := some "A", production_sequence := 1,
           planned_ga_in_datetime := none }] =
      Except.error PSError.pandasIntCastingNaNError ∧
    analyze_paint_distribution 20 [] = Except.ok [] ∧
    analyze_paint_distribution 20
        [{ vin := 1, paint := some "A", production_sequence := 1,
           planned_ga_in_datetime := none }] =
      Except.ok (paint_summary 20
        [{ vin := 1, paint := some "A", production_sequence := 1,
           planned_ga_in_datetime := none }]) :=
  ⟨C5_amended_analysis_never_fails.2.2.2.2 20 [] _ rfl,
   C5_amended_analysis_never_fails.2.2.1 _ (by decide),
   C5_amended_analysis_never_fails.2.1 20,
   C5_amended_analysis_never_fails.1 20 _ (by omega)⟩

/-- C6 counterexample: with `total_batches = 0` the model construction
fails with the interpreter's KeyError (the `y[0] == 1` constraint indexes
an empty dictionary), not with a `ModelConstructionError`. -/
theorem C6_cex_keyerror_not_mce :
    build_milp_model ["A"] (fun _ => 1) 0 = Except.error PSError.pythonKeyError ∧
    build_milp_model ["A"] (fun _ => 1) 0 ≠ Except.error PSError.modelConstructionError := by
  refine ⟨rfl, ?_⟩
  simp [build_milp_model]

/-- C6 (amended): the source performs no parameter validation and defines
no `ModelConstructionError` — model construction can never produce one;
with `total_batches = 0` (and no degenerate per-code count) it instead
raises a KeyError at the `y[0] = 1` constraint. -/
theorem C6_amended_no_model_construction_error :
    (∀ (PC : List String) (n : String → Nat) (T : Nat),
      build_milp_model PC n T ≠ Except.error PSError.modelConstructionError) ∧
    (∀ (PC : List String) (n : String → Nat), (∀ c ∈ PC, 0 < n c) →
      build_milp_model PC n 0 = Except.error PSError.pythonKeyError) := by
  constructor
  · intro PC n T
    unfold build_milp_model
    split
    · simp
    · split
      · simp
      · simp
  · intro PC n hpos
    have hany : PC.any (fun c => n c == 0) = false := by
      rw [List.any_eq_false]
      intro c hc
      have := hpos c hc
      simp
      omega
    simp [build_milp_model, hany]

/-- C6 witness: the amended theorem applied at a one-code instance. -/
theorem C6_witness_empty_schedule_keyerror :
    build_milp_model ["A"] (fun _ => 1) 0 = Except.error PSError.pythonKeyError :=
  C6_amended_no_model_construction_error.2 ["A"] (fun _ => 1) (fun _ _ => Nat.one_pos)

/-- Length of the paint column equals the number of units when no paint
code is missing. -/
theorem paintColumn_length (vehicles : List Vehicle)
    (h : ∀ u ∈ vehicles, u.paint ≠ none) :
    (paintColumn vehicles).length = vehicles.length := by
  induction vehicles with
  | nil => rfl
  | cons u us ih =>
    obtain ⟨a, ha⟩ := Option.ne_none_iff_exists'.mp (h u (by simp))
    have htail : ∀ v ∈ us, v.paint ≠ none := fun v hv => h v (by simp [hv])
    simp [paintColumn, List.filterMap_cons, ha] at ih ⊢
    exact ih htail

/-- Rows of the distribution summary record exactly the ceiling-division
batch requirement of their vehicle count. -/
theorem paint_summary_row_batches (batch_size : Nat) (vehicles : List Vehicle) :
    ∀ r ∈ paint_summary batch_size vehicles,
      r.total_batches = ceilDiv r.vehicle_count batch_size := by
  intro r hr
  have hperm := List.perm_insertionSort
    (fun a b : PaintSummaryRow => a.vehicle_count ≥ b.vehicle_count)
    ((paintColumn vehicles).dedup.map
      (fun p => mkSummaryRow batch_size p ((paintColumn vehicles).count p)))
  have hr' : r ∈ (paintColumn vehicles).dedup.map
      (fun p => mkSummaryRow batch_size p ((paintColumn vehicles).count p)) :=
    hperm.mem_iff.mp hr
  obtain ⟨p, _, rfl⟩ := List.mem_map.mp hr'
  rfl

/-- C9 (amended): the sum of the per-code ceiling-division batch counts
over the summary equals the schedule length `total_batches` used by the
model (unconditionally, since the model sums exactly that column), and the
per-code vehicle counts sum to the number of input units provided every
unit has a present paint code (pandas `value_counts` silently drops
missing paints, so the second equation fails on inputs with missing
codes — see the counterexample). -/
theorem C9_amended_summary_invariants (batch_size : Nat) (vehicles : List Vehicle) :
    ((paint_summary batch_size vehicles).map
        (fun r => ceilDiv r.vehicle_count batch_size)).sum =
      total_batches_model batch_size vehicles ∧
    ((∀ u ∈ vehicles, u.paint ≠ none) →
      ((paint_summary batch_size vehicles).map (·.vehicle_count)).sum =
        vehicles.length) := by
  constructor
  · have hcongr : (paint_summary batch_size vehicles).map
        (fun r => ceilDiv r.vehicle_count batch_size) =
        (paint_summary batch_size vehicles).map (·.total_batches) :=
      List.map_congr_left
        (fun r hr => (paint_summary_row_batches batch_size vehicles r hr).symm)
    rw [hcongr]
    rfl
  · intro hall
    have hperm := List.perm_insertionSort
      (fun a b : PaintSummaryRow => a.vehicle_count ≥ b.vehicle_count)
      ((paintColumn vehicles).dedup.map
        (fun p => mkSummaryRow batch_size p ((paintColumn vehicles).count p)))
    have hsum : ((paint_summary batch_size vehicles).map (·.vehicle_count)).sum =
        (((paintColumn vehicles).dedup.map
          (fun p => mkSummaryRow batch_size p ((paintColumn vehicles).count p))).map
            (·.vehicle_count)).sum :=
      (hperm.map (·.vehicle_count)).sum_eq
    rw [hsum, List.map_map]
    have : ((·.vehicle_count) ∘ fun p =>
        mkSummaryRow batch_size p ((paintColumn vehicles).count p)) =
        fun p => (paintColumn vehicles).count p := rfl
    rw [this, List.sum_map_count_dedup_eq_length]
    exact paintColumn_length vehicles hall

/-- C9 counterexample: a single unit with a missing paint code has summary
counts summing to 0, not to the unit count 1. -/
theorem C9_cex_missing_paint_breaks_totals :
    ((paint_summary 20
        [{ vin := 1, paint := none, production_sequence := 1,
           planned_ga_in_datetime := none }]).map (·.vehicle_count)).sum = 0 ∧
    ((paint_summary 20
        [{ vin := 1, paint := none, production_sequence := 1,
           planned_ga_in_datetime := none }]).map (·.vehicle_count)).sum ≠
      ([{ vin := 1, paint := none, production_sequence := 1,
          planned_ga_in_datetime := none }] : List Vehicle).length := by
  refine ⟨rfl, by decide⟩

/-- C9 witness: both summary invariants hold on a concrete all-present
input. -/
theorem C9_witness_summary_invariants :
    ((paint_summary 20
        [{ vin := 1, paint := some "A", production_sequence := 1,
           planned_ga_in_datetime := none }]).map (·.vehicle_count)).sum =
      ([{ vin := 1, paint := some "A", production_sequence := 1,
          planned_ga_in_datetime := none }] : List Vehicle).length :=
  (C9_amended_summary_invariants 20 _).2 (by decide)

/-- C7 counterexample: extraction raises nothing.  A slot in which no
assignment variable exceeds `0.5` is silently omitted (the output is
shorter than `total_batches`), and when several codes exceed the threshold
the first in summary order is taken — in neither case is a
`SolutionIntegrityError` produced (the source defines no such class). -/
theorem C7_cex_no_integrity_error :
    extract_solution ["A"] 1 (fun _ _ => 0) = Except.ok [] ∧
    extract_solution ["A"] 1 (fun _ _ => 0) ≠
      Except.error PSError.solutionIntegrityError ∧
    extract_solution ["A", "B"] 1 (fun _ _ => 1) =
      Except.ok [{ batch_position := 0, paint_code := "A" }] := by
  refine ⟨?_, ?_, ?_⟩
  · simp only [extract_solution, extractList]
    norm_num [List.range_succ, List.find?, List.filterMap_cons]
  · simp [extract_solution]
  · simp only [extract_solution, extractList]
    norm_num [List.range_succ, List.find?, List.filterMap_cons]

/-- Helper restatement of `List.find?_some` with fully explicit arguments
(avoids a higher-order unification failure at beta-reducible use sites). -/
theorem find?_pred_eq_true {α : Type} (p : α → Bool) (l : List α) (a : α)
    (h : l.find? p = some a) : p a = true :=
  List.find?_some h

/-- C7 (amended): for every solver assignment, extraction never fails; it
returns, in increasing slot order, one row per slot whose first paint code
(in summary order) exceeds the `0.5` threshold, each selected code being a
member of the code list with value above the threshold; slots with no code
above the threshold are dropped, so the result has at most `total_batches`
rows. -/
theorem C7_amended_extraction (PC : List String) (T : Nat) (xv : String → Nat → ℚ) :
    extract_solution PC T xv = Except.ok (extractList PC T xv) ∧
    (extractList PC T xv).length ≤ T ∧
    (extractList PC T xv).Pairwise (fun p q => p.batch_position < q.batch_position) ∧
    (∀ e ∈ extractList PC T xv,
      e.paint_code ∈ PC ∧ (1 : ℚ) / 2 < xv e.paint_code e.batch_position) := by
  refine ⟨rfl, ?_, ?_, ?_⟩
  · calc (extractList PC T xv).length ≤ (List.range T).length :=
          List.length_filterMap_le _ _
      _ = T := List.length_range T
  · rw [extractList, List.pairwise_filterMap]
    apply (List.pairwise_lt_range T).imp
    intro a b hab x hx y hy
    rcases hfa : PC.find? (fun c => decide ((1 : ℚ) / 2 < xv c a)) with _ | ca
    · rw [hfa] at hx; simp at hx
    · rcases hfb : PC.find? (fun c => decide ((1 : ℚ) / 2 < xv c b)) with _ | cb
      · rw [hfb] at hy; simp at hy
      · rw [hfa] at hx
        rw [hfb] at hy
        simp only [Option.map_some', Option.mem_def, Option.some.injEq] at hx hy
        rw [← hx, ← hy]
        exact hab
  · intro e he
    obtain ⟨b, _, hfb⟩ := List.mem_filterMap.mp he
    rcases hfind : PC.find? (fun c => decide ((1 : ℚ) / 2 < xv c b)) with _ | c
    · rw [hfind] at hfb; simp at hfb
    · rw [hfind] at hfb
      simp only [Option.map_some', Option.some.injEq] at hfb
      have hc1 : c ∈ PC := List.mem_of_find?_eq_some hfind
      have hc2' := find?_pred_eq_true (fun c => decide ((1 : ℚ) / 2 < xv c b)) PC c hfind
      have hc2 : (1 : ℚ) / 2 < xv c b := of_decide_eq_true hc2'
      rw [← hfb]
      exact ⟨hc1, hc2⟩

/-- Length of the solution rows generated for one batch equals the number
of picked units. -/
theorem rowsFor_length (p : String) (pos : Nat) :
    ∀ (seq : Nat) (l : List Vehicle), (rowsFor p pos seq l).length = l.length := by
  intro seq l
  induction l generalizing seq with
  | nil => rfl
  | cons u us ih => simp [rowsFor, ih]

/-- Each batch contributes at most `batch_size` rows. -/
theorem assignGo_length_le (vehicles : List Vehicle) (batch_size : Nat) :
    ∀ (batches : List BatchRow) (assigned : List Nat) (seq : Nat),
      (assignGo vehicles batch_size batches assigned seq).length ≤
        batch_size * batches.length := by
  intro batches
  induction batches with
  | nil => intro assigned seq; simp [assignGo]
  | cons b rest ih =>
    intro assigned seq
    rw [assignGo]
    rw [List.length_append, rowsFor_length]
    have hpick : (pickFor vehicles assigned b.paint_code batch_size).length ≤ batch_size := by
      rw [pickFor, List.length_take]
      exact Nat.min_le_left _ _
    have := ih (assigned ++ (pickFor vehicles assigned b.paint_code batch_size).map (·.vin))
      (seq + (pickFor vehicles assigned b.paint_code batch_size).length)
    calc (pickFor vehicles assigned b.paint_code batch_size).length +
          (assignGo vehicles batch_size rest _ _).length
        ≤ batch_size + batch_size * rest.length := by omega
      _ = batch_size * (rest.length + 1) := by ring
      _ = batch_size * (b :: rest).length := by simp

/-- C8 (amended): unit assignment never fails.  A batch whose paint code
has fewer remaining unassigned units than `batch_size` silently receives
only the remaining units (possibly none) — no `AssignmentShortfallError`
exists in the source — and every batch contributes at most `batch_size`
rows. -/
theorem C8_amended_no_shortfall_error (vehicles : List Vehicle) (batch_size : Nat)
    (batch_sequence : List BatchRow) :
    assign_vehicles_to_batches vehicles batch_size batch_sequence =
      Except.ok (assign_vehicles_pure vehicles batch_size batch_sequence) ∧
    (assign_vehicles_pure vehicles batch_size batch_sequence).length ≤
      batch_size * batch_sequence.length := by
  refine ⟨rfl, ?_⟩
  rw [assign_vehicles_pure]
  calc (assignGo vehicles batch_size
        (batch_sequence.insertionSort (fun a b => a.batch_position ≤ b.batch_position))
        [] 1).length
      ≤ batch_size *
        (batch_sequence.insertionSort
          (fun a b => a.batch_position ≤ b.batch_position)).length :=
        assignGo_length_le _ _ _ _ _
    _ = batch_size * batch_sequence.length := by
        rw [List.length_insertionSort]

/-- C8 counterexample: a batch whose paint code has no remaining units
(here: no units at all) produces an empty, successful assignment instead
of an `AssignmentShortfallError`. -/
theorem C8_cex_shortfall_is_silent :
    assign_vehicles_to_batches [] 20 [{ batch_position := 0, paint_code := "A" }] =
      Except.ok [] ∧
    assign_vehicles_to_batches [] 20 [{ batch_position := 0, paint_code := "A" }] ≠
      Except.error PSError.assignmentShortfallError := by
  refine ⟨rfl, ?_⟩
  simp [assign_vehicles_to_batches]

/-- Frame lemma for the timestamp loop: all non-timestamp fields and the
row order are untouched. -/
theorem update_timestamps_go_frame (start increment : Int) :
    ∀ (i : Int) (rows : List SolutionRow),
      (update_timestamps_go start increment i rows).map
          (fun r => (r.vin, r.paint, r.batch_id, r.production_sequence,
            r.original_sequence)) =
        rows.map (fun r => (r.vin, r.paint, r.batch_id, r.production_sequence,
          r.original_sequence)) := by
  intro i rows
  induction rows generalizing i with
  | nil => rfl
  | cons r rest ih => simp [update_timestamps_go, ih]

/-- C10: `update_timestamps` modifies only the planned timestamp column —
for every solution table, every row's VIN, paint code, batch id, new
production sequence and original sequence, together with the row order and
the row count, are unchanged. -/
theorem C10_update_timestamps_frame (rows : List SolutionRow) (start increment : Int) :
    (update_timestamps rows start increment).map
        (fun r => (r.vin, r.paint, r.batch_id, r.production_sequence,
          r.original_sequence)) =
      rows.map (fun r => (r.vin, r.paint, r.batch_id, r.production_sequence,
        r.original_sequence)) ∧
    (update_timestamps rows start increment).length = rows.length := by
  constructor
  · exact update_timestamps_go_frame start increment 0 rows
  · have := congrArg List.length (update_timestamps_go_frame start increment 0 rows)
    simpa using this

/-- Number of adjacent paint changes along a slot/unit paint list, given
the paint of the preceding element. -/
def chainCount (prev : String) : List String → Nat
  | [] => 0
  | p :: rest => (if p ≠ prev then 1 else 0) + chainCount p rest

/-- Tight changeover variables as described by claim C3: `y 0 = 1` and,
for `s ≥ 1`, `y s = 1` exactly when the paint of slot `s` differs from
slot `s − 1`. -/
def tightY (paints : List String) : Nat → Nat
  | 0 => 1
  | s + 1 => if paints.getD (s + 1) "" ≠ paints.getD s "" then 1 else 0

/-- The claim's `Σ_s y[s]` over all slots, for tight `y`. -/
def tightYsum (paints : List String) : Nat :=
  ((List.range paints.length).map (tightY paints)).sum

/-- The changeover scan starting below a known previous paint counts the
adjacent paint changes. -/
theorem changeover_scan_length (rows : List SolutionRow) :
    ∀ q : String, (changeover_scan (some q) rows).length =
      chainCount q (rows.map (·.paint)) := by
  induction rows with
  | nil => intro q; rfl
  | cons r rest ih =>
    intro q
    by_cases h : r.paint ≠ q
    · simp [changeover_scan, chainCount, h, ih]
      omega
    · simp [changeover_scan, chainCount, h, ih]

/-- Sum of the tight changeover indicators after the first slot. -/
theorem tight_sum_aux :
    ∀ (rest : List String) (p : String),
      ((List.range rest.length).map
        (fun s => if rest.getD s "" ≠ (p :: rest).getD s "" then 1 else 0)).sum =
      chainCount p rest := by
  intro rest
  induction rest with
  | nil => intro p; rfl
  | cons q rest' ih =>
    intro p
    rw [List.length_cons, List.range_succ_eq_map, List.map_cons, List.map_map,
      List.sum_cons]
    have hf : ((fun s => if (q :: rest').getD s "" ≠ (p :: q :: rest').getD s ""
        then 1 else 0) ∘ Nat.succ) =
        (fun s => if rest'.getD s "" ≠ (q :: rest').getD s "" then 1 else 0) := by
      funext s
      rfl
    rw [hf, ih q]
    rfl

/-- For a nonempty paint list, the claim's `Σ_s y[s]` is one (the forced
first-slot setup) plus the number of adjacent changes. -/
theorem tightYsum_eq (p : String) (rest : List String) :
    tightYsum (p :: rest) = 1 + chainCount p rest := by
  rw [tightYsum, List.length_cons, List.range_succ_eq_map, List.map_cons,
    List.map_map, List.sum_cons]
  have hf : (tightY (p :: rest) ∘ Nat.succ) =
      (fun s => if rest.getD s "" ≠ (p :: rest).getD s "" then 1 else 0) := by
    funext s
    rfl
  rw [hf, tight_sum_aux rest p]
  rfl

/-- A positive run of one paint contributes exactly one change against a
different previous paint. -/
theorem chainCount_replicate (p prev : String) (l : List String) :
    ∀ k : Nat, chainCount prev (List.replicate (k + 1) p ++ l) =
      (if p ≠ prev then 1 else 0) + chainCount p l := by
  intro k
  induction k generalizing prev with
  | zero => rfl
  | succ k' ih =>
    rw [List.replicate_succ, List.cons_append, chainCount, ih p]
    simp

/-- A run of the current paint contributes no change. -/
theorem chainCount_replicate_self (p : String) (l : List String) :
    ∀ m : Nat, chainCount p (List.replicate m p ++ l) = chainCount p l := by
  intro m
  cases m with
  | zero => rfl
  | succ k =>
    rw [chainCount_replicate]
    simp

/-- Expanding every slot into a positive run of units does not change the
number of adjacent paint changes. -/
theorem chainCount_flatten :
    ∀ (paints : List String) (counts : List Nat) (prev : String),
      counts.length = paints.length → (∀ k ∈ counts, 0 < k) →
      chainCount prev (List.zipWith List.replicate counts paints).flatten =
        chainCount prev paints := by
  intro paints
  induction paints with
  | nil =>
    intro counts prev hlen _
    have : counts = [] := List.length_eq_zero.mp (by simpa using hlen)
    subst this
    rfl
  | cons p ps ih =>
    intro counts prev hlen hpos
    cases counts with
    | nil => simp at hlen
    | cons k ks =>
      have hk : 0 < k := hpos k (by simp)
      obtain ⟨k', rfl⟩ : ∃ k', k = k' + 1 := ⟨k - 1, by omega⟩
      rw [List.zipWith_cons_cons, List.flatten_cons, chainCount_replicate]
      rw [ih ks p (by simpa using hlen) (fun c hc => hpos c (by simp [hc]))]
      rfl

/-- C3 (amended): for every solved model with tight changeover variables,
the changeover count computed by the metrics stage over the realized unit
sequence equals `Σ_s y[s]` **minus one**: the model forces `y[0] = 1` for
the first slot, but the metrics loop starts with no previous paint and
never counts the first unit.  Here the realized unit sequence is any
solution table whose paint column expands each slot of the batch sequence
into a positive run of units of that slot's paint. -/
theorem C3_amended_changeover_count (rows : List SolutionRow)
    (paints : List String) (counts : List Nat)
    (h1 : rows.map (·.paint) = (List.zipWith List.replicate counts paints).flatten)
    (h2 : counts.length = paints.length)
    (h3 : ∀ k ∈ counts, 0 < k)
    (h4 : paints ≠ []) :
    (generate_summary_metrics rows).total_changeovers + 1 = tightYsum paints := by
  obtain ⟨p, ps, rfl⟩ := List.exists_cons_of_ne_nil h4
  cases counts with
  | nil => simp at h2
  | cons k ks =>
    have hk : 0 < k := h3 k (by simp)
    obtain ⟨k', rfl⟩ : ∃ k', k = k' + 1 := ⟨k - 1, by omega⟩
    rw [List.zipWith_cons_cons, List.flatten_cons, List.replicate_succ,
      List.cons_append] at h1
    cases rows with
    | nil => simp at h1
    | cons r rest =>
      rw [List.map_cons] at h1
      have hr : r.paint = p := (List.cons.injEq _ _ _ _ ▸ h1).1
      have hrest : rest.map (·.paint) =
          List.replicate k' p ++ (List.zipWith List.replicate ks ps).flatten :=
        (List.cons.injEq _ _ _ _ ▸ h1).2
      have hcount : (generate_summary_metrics (r :: rest)).total_changeovers =
          chainCount r.paint (rest.map (·.paint)) := by
        rw [generate_summary_metrics]
        exact changeover_scan_length rest r.paint
      rw [hcount, hr, hrest, chainCount_replicate_self,
        chainCount_flatten ps ks p (by simpa using h2)
          (fun c hc => h3 c (by simp [hc])),
        tightYsum_eq]
      omega

/-- C3 counterexample: a single batch realized by a single unit.  The
metrics stage counts 0 changeovers (the first unit has no previous paint),
while the tight `Σ_s y[s]` is 1 because the model forces `y[0] = 1`; the
claimed equality fails. -/
theorem C3_cex_first_slot_not_counted :
    (generate_summary_metrics
        [{ vin := 1, paint := "A", batch_id := 1, production_sequence := 1,
           original_sequence := 1, planned_ga_in_datetime := none }]).total_changeovers = 0 ∧
    tightYsum ["A"] = 1 ∧
    ([{ vin := 1, paint := "A", batch_id := 1, production_sequence := 1,
        original_sequence := 1, planned_ga_in_datetime := none }] :
      List SolutionRow).map (·.paint) =
      (List.zipWith List.replicate [1] ["A"]).flatten ∧
    (generate_summary_metrics
        [{ vin := 1, paint := "A", batch_id := 1, production_sequence := 1,
           original_sequence := 1, planned_ga_in_datetime := none }]).total_changeovers ≠
      tightYsum ["A"] := by
  refine ⟨rfl, rfl, rfl, by decide⟩

/-- C3 witness: the amended off-by-one identity at the concrete
single-batch instance. -/
theorem C3_witness_changeover_count :
    (generate_summary_metrics
        [{ vin := 1, paint := "A", batch_id := 1, production_sequence := 1,
           original_sequence := 1, planned_ga_in_datetime := none }]).total_changeovers + 1 =
      tightYsum ["A"] :=
  C3_amended_changeover_count _ ["A"] [1] rfl rfl (by decide) (by decide)

/-! ## Order preservation of the unit assignment (claim C4)

The assignment loop takes, for each batch, the first `batch_size`
not-yet-assigned rows of the vehicle table with matching paint, in *table
order*.  The key invariant: for any paint key, the units assigned so far
form a prefix of the remaining matching units, so the output restricted to
one paint key is a sublist of the table restricted to that key. -/

/-- Vehicle-level assignment loop: the units picked for each batch paint in
order (the rows built by `assignGo` decorate exactly these units). -/
def assignUnits (vehicles : List Vehicle) (batch_size : Nat) :
    List String → List Nat → List Vehicle
  | [], _ => []
  | p :: rest, assigned =>
    let pick := pickFor vehicles assigned p batch_size
    pick ++ assignUnits vehicles batch_size rest (assigned ++ pick.map (·.vin))

/-- Units picked for a batch are rows of the table. -/
theorem pickFor_subset (vehicles : List Vehicle) (assigned : List Nat)
    (p : String) (batch_size : Nat) :
    ∀ u ∈ pickFor vehicles assigned p batch_size, u ∈ vehicles := by
  intro u hu
  have := List.mem_of_mem_take hu
  exact (List.mem_filter.mp this).1

/-- Units picked for a batch carry the batch's paint code. -/
theorem pickFor_paint (vehicles : List Vehicle) (assigned : List Nat)
    (p : String) (batch_size : Nat) :
    ∀ u ∈ pickFor vehicles assigned p batch_size, u.paint = some p := by
  intro u hu
  have hmem := List.mem_filter.mp (List.mem_of_mem_take hu)
  have := (Bool.and_eq_true _ _).mp hmem.2
  exact eq_of_beq this.1

/-- Splitting the assigned-VIN list splits the remaining-units filter. -/
theorem filter_assigned_append (vehicles : List Vehicle) (k : Option String)
    (A B : List Nat) :
    vehicles.filter (fun u => u.paint == k && !(decide (u.vin ∈ A ++ B))) =
      (vehicles.filter (fun u => u.paint == k && !(decide (u.vin ∈ A)))).filter
        (fun u => !(decide (u.vin ∈ B))) := by
  rw [List.filter_filter]
  apply List.filter_congr
  intro u _
  by_cases hA : u.vin ∈ A <;> by_cases hB : u.vin ∈ B <;>
    simp [hA, hB, List.mem_append]

/-- Removing the VINs of the first `m` rows of a VIN-distinct list by
membership filtering is exactly dropping those rows. -/
theorem filter_not_mem_take (l : List Vehicle) (hnd : (l.map (·.vin)).Nodup) :
    ∀ m, l.filter (fun u => !(decide (u.vin ∈ (l.take m).map (·.vin)))) = l.drop m := by
  induction l with
  | nil => intro m; simp
  | cons x xs ih =>
    intro m
    cases m with
    | zero =>
      rw [List.take_zero, List.drop_zero]
      apply List.filter_eq_self.mpr
      intro u _
      simp
    | succ m' =>
      rw [List.take_succ_cons, List.drop_succ_cons, List.map_cons, List.filter_cons]
      have hx : (!(decide (x.vin ∈ x.vin :: (xs.take m').map (·.vin)))) = false := by
        simp
      rw [hx]
      have hne : ∀ u ∈ xs, u.vin ≠ x.vin := by
        intro u hu hequ
        have : x.vin ∈ xs.map (·.vin) := List.mem_map.mpr ⟨u, hu, hequ⟩
        rw [List.map_cons] at hnd
        exact (List.nodup_cons.mp hnd).1 this
      have hcongr : xs.filter (fun u => !(decide (u.vin ∈ x.vin :: (xs.take m').map (·.vin)))) =
          xs.filter (fun u => !(decide (u.vin ∈ (xs.take m').map (·.vin)))) := by
        apply List.filter_congr
        intro u hu
        simp [List.mem_cons, hne u hu]
      rw [if_neg (by simp), hcongr,
        ih (by rw [List.map_cons] at hnd; exact (List.nodup_cons.mp hnd).2) m']

/-- Picking units of a different paint does not change the remaining-units
filter for key `k`. -/
theorem filter_assigned_other (vehicles : List Vehicle)
    (hnd : (vehicles.map (·.vin)).Nodup) (A : List Nat) (q : String)
    (k : Option String) (hk : k ≠ some q) (batch_size : Nat) :
    vehicles.filter (fun u => u.paint == k &&
      !(decide (u.vin ∈ A ++ (pickFor vehicles A q batch_size).map (·.vin)))) =
      vehicles.filter (fun u => u.paint == k && !(decide (u.vin ∈ A))) := by
  apply List.filter_congr
  intro u hu
  cases hpb : (u.paint == k) with
  | false => simp [hpb]
  | true =>
    have hup : u.paint = k := eq_of_beq hpb
    have hnotpick : u.vin ∉ (pickFor vehicles A q batch_size).map (·.vin) := by
      intro contra
      obtain ⟨w, hw, hwv⟩ := List.mem_map.mp contra
      have hwu : w = u :=
        List.inj_on_of_nodup_map hnd (pickFor_subset vehicles A q batch_size w hw)
          hu hwv
      have : u.paint = some q := hwu ▸ pickFor_paint vehicles A q batch_size w hw
      exact hk (hup ▸ this)
    simp [List.mem_append, hnotpick]

/-- Core invariant: restricted to any paint key, the assigned units form a
sublist of the not-yet-assigned rows of the vehicle table with that key,
in table order. -/
theorem assignUnits_filter_sublist (vehicles : List Vehicle) (batch_size : Nat)
    (hnd : (vehicles.map (·.vin)).Nodup) :
    ∀ (ps : List String) (A : List Nat) (k : Option String),
      List.Sublist
        ((assignUnits vehicles batch_size ps A).filter (fun u => u.paint == k))
        (vehicles.filter (fun u => u.paint == k && !(decide (u.vin ∈ A)))) := by
  intro ps
  induction ps with
  | nil =>
    intro A k
    exact List.nil_sublist _
  | cons q rest ih =>
    intro A k
    simp only [assignUnits]
    rw [List.filter_append]
    by_cases hkq : k = some q
    · subst hkq
      have hpick_filter : (pickFor vehicles A q batch_size).filter
          (fun u => u.paint == some q) = pickFor vehicles A q batch_size :=
        List.filter_eq_self.mpr (fun u hu => by
          simp [pickFor_paint vehicles A q batch_size u hu])
      rw [hpick_filter]
      have hrec := ih (A ++ (pickFor vehicles A q batch_size).map (·.vin)) (some q)
      rw [filter_assigned_append] at hrec
      have hRnd : ((vehicles.filter
          (fun u => u.paint == some q && !(decide (u.vin ∈ A)))).map (·.vin)).Nodup :=
        List.Nodup.sublist ((List.filter_sublist vehicles).map (·.vin)) hnd
      have htake := filter_not_mem_take
        (vehicles.filter (fun u => u.paint == some q && !(decide (u.vin ∈ A))))
        hRnd batch_size
      rw [show (pickFor vehicles A q batch_size).map (·.vin) =
          (((vehicles.filter (fun u => u.paint == some q &&
            !(decide (u.vin ∈ A)))).take batch_size)).map (·.vin) from rfl] at hrec
      rw [htake] at hrec
      have hfinal := List.Sublist.append
        (List.Sublist.refl ((vehicles.filter (fun u => u.paint == some q &&
          !(decide (u.vin ∈ A)))).take batch_size)) hrec
      rw [List.take_append_drop] at hfinal
      exact hfinal
    · have hpick_nil : (pickFor vehicles A q batch_size).filter
          (fun u => u.paint == k) = [] :=
        List.filter_eq_nil_iff.mpr (fun u hu hcontra => by
          have hp := pickFor_paint vehicles A q batch_size u hu
          rw [hp] at hcontra
          exact hkq (eq_of_beq hcontra).symm)
      rw [hpick_nil, List.nil_append]
      have hrec := ih (A ++ (pickFor vehicles A q batch_size).map (·.vin)) k
      rw [filter_assigned_other vehicles hnd A q k hkq batch_size] at hrec
      exact hrec

/-- If, for every key, the sublist of elements with that key is pairwise
`S`-related, then the whole list is pairwise `S`-related among equal-key
elements. -/
theorem pairwise_of_filter_eq_key {α κ : Type} [BEq κ] [LawfulBEq κ]
    (key : α → κ) (S : α → α → Prop) :
    ∀ l : List α, (∀ k : κ, (l.filter (fun a => key a == k)).Pairwise S) →
      l.Pairwise (fun a b => key a = key b → S a b) := by
  intro l
  induction l with
  | nil =>
    intro _
    exact List.Pairwise.nil
  | cons x xs ih =>
    intro h
    refine List.pairwise_cons.mpr ⟨?_, ?_⟩
    · intro b hb hkey
      have hx := h (key x)
      rw [List.filter_cons, if_pos (by simp)] at hx
      exact (List.pairwise_cons.mp hx).1 b
        (List.mem_filter.mpr ⟨hb, by simpa using hkey.symm⟩)
    · apply ih
      intro k
      have hk := h k
      rw [List.filter_cons] at hk
      by_cases hxk : (key x == k) = true
      · rw [if_pos hxk] at hk
        exact List.Pairwise.of_cons hk
      · rw [if_neg hxk] at hk
        exact hk

/-- Projection of the rows of one batch onto (paint, original sequence). -/
theorem rowsFor_map_proj (p : String) (pos : Nat) :
    ∀ (seq : Nat) (l : List Vehicle),
      (rowsFor p pos seq l).map (fun r => (r.paint, r.original_sequence)) =
        l.map (fun u => (p, u.production_sequence)) := by
  intro seq l
  induction l generalizing seq with
  | nil => rfl
  | cons u us ih => simp [rowsFor, ih]

/-- The (paint, original sequence) projection of the produced solution rows
is the corresponding projection of the picked units. -/
theorem assignGo_map_proj (vehicles : List Vehicle) (batch_size : Nat) :
    ∀ (batches : List BatchRow) (A : List Nat) (seq : Nat),
      (assignGo vehicles batch_size batches A seq).map
          (fun r => (r.paint, r.original_sequence)) =
        (assignUnits vehicles batch_size (batches.map (·.paint_code)) A).map
          (fun u => (u.paint.getD "", u.production_sequence)) := by
  intro batches
  induction batches with
  | nil =>
    intro A seq
    rfl
  | cons b rest ih =>
    intro A seq
    simp only [assignGo, List.map_cons, assignUnits]
    rw [List.map_append, List.map_append, rowsFor_map_proj]
    congr 1
    · apply List.map_congr_left
      intro u hu
      rw [pickFor_paint vehicles A b.paint_code batch_size u hu]
      rfl
    · exact ih _ _

/-- Every assigned unit has a present paint code. -/
theorem assignUnits_paint_isSome (vehicles : List Vehicle) (batch_size : Nat) :
    ∀ (ps : List String) (A : List Nat) (u : Vehicle),
      u ∈ assignUnits vehicles batch_size ps A → ∃ q, u.paint = some q := by
  intro ps
  induction ps with
  | nil =>
    intro A u hu
    simp [assignUnits] at hu
  | cons p rest ih =>
    intro A u hu
    simp only [assignUnits] at hu
    rcases List.mem_append.mp hu with h | h
    · exact ⟨p, pickFor_paint _ _ _ _ u h⟩
    · exact ih _ u h

/-- C4 (amended): if the vehicle table has distinct VINs and its rows are
sorted by ascending original sequence — which is how the table-order-based
selection of the source coincides with the claim's
ascending-original-sequence selection — then the assignment preserves
original relative order within each paint code: any earlier output row
with the same paint code has an original sequence index no larger than any
later one.  (Without the sortedness assumption the claim fails: the source
selects units in table order, not by the original-sequence column — see
the counterexample.) -/
theorem C4_amended_order_preserved (vehicles : List Vehicle) (batch_size : Nat)
    (batch_sequence : List BatchRow)
    (hnd : (vehicles.map (·.vin)).Nodup)
    (hsort : vehicles.Pairwise
      (fun a b => a.production_sequence ≤ b.production_sequence)) :
    (assign_vehicles_pure vehicles batch_size batch_sequence).Pairwise
      (fun r₁ r₂ => r₁.paint = r₂.paint →
        r₁.original_sequence ≤ r₂.original_sequence) := by
  have hunits : (assignUnits vehicles batch_size
      ((batch_sequence.insertionSort
        (fun a b => a.batch_position ≤ b.batch_position)).map (·.paint_code))
      []).Pairwise
      (fun u w => u.paint = w.paint →
        u.production_sequence ≤ w.production_sequence) := by
    apply pairwise_of_filter_eq_key (fun u : Vehicle => u.paint)
      (fun u w => u.production_sequence ≤ w.production_sequence)
    intro k
    have hsub := assignUnits_filter_sublist vehicles batch_size hnd
      ((batch_sequence.insertionSort
        (fun a b => a.batch_position ≤ b.batch_position)).map (·.paint_code)) [] k
    have hfil : vehicles.filter
        (fun u => u.paint == k && !(decide (u.vin ∈ ([] : List Nat)))) =
        vehicles.filter (fun u => u.paint == k) := by
      apply List.filter_congr
      intro u _
      simp
    rw [hfil] at hsub
    exact List.Pairwise.sublist hsub (List.Pairwise.filter _ hsort)
  have hsome := assignUnits_paint_isSome vehicles batch_size
    ((batch_sequence.insertionSort
      (fun a b => a.batch_position ≤ b.batch_position)).map (·.paint_code)) []
  have hunits' : (assignUnits vehicles batch_size
      ((batch_sequence.insertionSort
        (fun a b => a.batch_position ≤ b.batch_position)).map (·.paint_code))
      []).Pairwise
      (fun u w => u.paint.getD "" = w.paint.getD "" →
        u.production_sequence ≤ w.production_sequence) := by
    refine List.Pairwise.imp_of_mem ?_ hunits
    intro a b ha hb hab hgetD
    obtain ⟨qa, hqa⟩ := hsome a ha
    obtain ⟨qb, hqb⟩ := hsome b hb
    apply hab
    rw [hqa, hqb] at hgetD ⊢
    simpa using hgetD
  have hpairs : ((assignGo vehicles batch_size
      (batch_sequence.insertionSort
        (fun a b => a.batch_position ≤ b.batch_position)) [] 1).map
      (fun r => (r.paint, r.original_sequence))).Pairwise
      (fun x y => x.1 = y.1 → x.2 ≤ y.2) := by
    rw [assignGo_map_proj, List.pairwise_map]
    exact hunits'
  rw [List.pairwise_map] at hpairs
  exact hpairs

/-- C4 counterexample: the source selects units in vehicle-table order,
not in ascending original-sequence order.  With two same-paint units whose
table order is opposite to their original sequence, the unit with original
sequence 2 is assigned before the unit with original sequence 1, violating
the claim as stated. -/
theorem C4_cex_table_order_not_sequence_order :
    (assign_vehicles_pure
        [{ vin := 1, paint := some "A", production_sequence := 2,
           planned_ga_in_datetime := none },
         { vin := 2, paint := some "A", production_sequence := 1,
           planned_ga_in_datetime := none }] 20
        [{ batch_position := 0, paint_code := "A" }]).map
      (fun r => (r.paint, r.original_sequence)) = [("A", 2), ("A", 1)] ∧
    ¬ (assign_vehicles_pure
        [{ vin := 1, paint := some "A", production_sequence := 2,
           planned_ga_in_datetime := none },
         { vin := 2, paint := some "A", production_sequence := 1,
           planned_ga_in_datetime := none }] 20
        [{ batch_position := 0, paint_code := "A" }]).Pairwise
      (fun r₁ r₂ => r₁.paint = r₂.paint →
        r₁.original_sequence ≤ r₂.original_sequence) := by
  refine ⟨by decide, by decide⟩

/-- C4 witness: order preservation on a concrete VIN-distinct,
sequence-sorted table with interleaved batches. -/
theorem C4_witness_order_preserved :
    (assign_vehicles_pure
        [{ vin := 1, paint := some "A", production_sequence := 1,
           planned_ga_in_datetime := none },
         { vin := 2, paint := some "B", production_sequence := 2,
           planned_ga_in_datetime := none },
         { vin := 3, paint := some "A", production_sequence := 3,
           planned_ga_in_datetime := none }] 1
        [{ batch_position := 0, paint_code := "A" },
         { batch_position := 1, paint_code := "B" },
         { batch_position := 2, paint_code := "A" }]).Pairwise
      (fun r₁ r₂ => r₁.paint = r₂.paint →
        r₁.original_sequence ≤ r₂.original_sequence) :=
  C4_amended_order_preserved _ 1 _ (by decide) (by decide)
